import Mathlib

/-!
# Verification of the video content-extraction pipeline

Shallow embedding of `src/poc/parse_video_content/video_parser.py` and the
dependency probe of `src/poc/facebook_get_video.py`, together with proofs of
the testable properties stated in the specification.

Text is modelled as `List Char` restricted to ASCII (the Python regular
expressions are modelled with the ASCII meaning of the classes `\d` and `\s`,
and `str.strip()` with the same whitespace set).  External effects
(subprocess invocations, the speech backends, file I/O) are modelled by an
explicit environment record holding the outcome of each external call; the
Python functions become pure functions of that environment, with Python
exceptions modelled by `Except`.
-/

namespace VideoPoc

/-- ASCII meaning of the regex class `\d`. -/
def isPyDigit (c : Char) : Bool :=
  '0' ≤ c && c ≤ '9'

/-- ASCII meaning of the regex class `\s` (also the set stripped by
`str.strip()`): space, tab, newline, carriage return, form feed,
vertical tab. -/
def isPySpace (c : Char) : Bool :=
  c = ' ' || c = '\t' || c = '\n' || c = '\r' || c = '\x0c' || c = '\x0b'

/-- Python `str.strip()`: drop leading and trailing whitespace. -/
def pyStrip (l : List Char) : List Char :=
  ((l.dropWhile isPySpace).reverse.dropWhile isPySpace).reverse

/-- Python `int` on a digit string (the regex guarantees only digits). -/
def digitsToNat (l : List Char) : Nat :=
  l.foldl (fun acc c => 10 * acc + (c.toNat - '0'.toNat)) 0

/-- Shape check for the regex fragment `\d{2}:\d{2}:\d{2},\d{3}`. -/
def tsShape (t : List Char) : Bool :=
  match t with
  | [h1, h2, c1, m1, m2, c2, s1, s2, c3, x1, x2, x3] =>
    isPyDigit h1 && isPyDigit h2 && (c1 = ':') &&
    isPyDigit m1 && isPyDigit m2 && (c2 = ':') &&
    isPyDigit s1 && isPyDigit s2 && (c3 = ',') &&
    isPyDigit x1 && isPyDigit x2 && isPyDigit x3
  | _ => false

/-- Match the timestamp fragment at the head of the input, returning the
captured 12 characters and the remainder. -/
def matchTs (l : List Char) : Option (List Char × List Char) :=
  if tsShape (l.take 12) then some (l.take 12, l.drop 12) else none

/-- Match the literal `-->` at the head of the input. -/
def matchArrow (l : List Char) : Option (List Char) :=
  match l with
  | '-' :: '-' :: '>' :: r => some r
  | _ => none

/-- The lookahead `(?=\n\n\d+|\Z)` restricted to its non-end alternative:
true when the input starts with two newlines followed by a digit. -/
def lookNN (l : List Char) : Bool :=
  match l with
  | a :: b :: c :: _ => a = '\n' && b = '\n' && isPyDigit c
  | _ => false

/-- The lazy group `([\s\S]*?)(?=\n\n\d+|\Z)`: capture the shortest prefix
whose remainder satisfies the lookahead, falling back to the whole input
(the `\Z` alternative). -/
def lazyText (l : List Char) : List Char × List Char :=
  match l with
  | [] => ([], [])
  | c :: cs =>
    if lookNN (c :: cs) then ([], c :: cs)
    else
      let (t, r) := lazyText cs
      (c :: t, r)

/-- The four captured groups of one match of the SRT block pattern. -/
structure RawMatch where
  index : List Char
  start_time : List Char
  end_time : List Char
  text : List Char
  deriving DecidableEq, Repr

/-- Attempt to match the pattern
`(\d+)\s+(\d{2}:\d{2}:\d{2},\d{3})\s+-->\s+(\d{2}:\d{2}:\d{2},\d{3})\s+([\s\S]*?)(?=\n\n\d+|\Z)`
anchored at the head of the input.  For this pattern Python's backtracking
is vacuous: every greedy `\d+`/`\s+` is followed by a character of a
disjoint class, and the lazy tail group always succeeds via the `\Z`
alternative, so the greedy-then-lazy evaluation below computes exactly the
match Python finds. -/
def srtMatchFrom (s : List Char) : Option (RawMatch × List Char) :=
  let ds := s.takeWhile isPyDigit
  let r1 := s.dropWhile isPyDigit
  if ds.isEmpty then none else
  let w1 := r1.takeWhile isPySpace
  let r2 := r1.dropWhile isPySpace
  if w1.isEmpty then none else
  match matchTs r2 with
  | none => none
  | some (t1, r3) =>
    let w2 := r3.takeWhile isPySpace
    let r4 := r3.dropWhile isPySpace
    if w2.isEmpty then none else
    match matchArrow r4 with
    | none => none
    | some r5 =>
      let w3 := r5.takeWhile isPySpace
      let r6 := r5.dropWhile isPySpace
      if w3.isEmpty then none else
      match matchTs r6 with
      | none => none
      | some (t2, r7) =>
        let w4 := r7.takeWhile isPySpace
        let r8 := r7.dropWhile isPySpace
        if w4.isEmpty then none else
        let tr := lazyText r8
        some ({ index := ds, start_time := t1, end_time := t2, text := tr.1 }, tr.2)

/-- `re.findall` scanning loop for the SRT pattern, with explicit fuel
(every match consumes at least one character, so `s.length` fuel is always
enough; see `srtFindAllGo_fuel`). -/
def srtFindAllGo : Nat → List Char → List RawMatch
  | 0, _ => []
  | _ + 1, [] => []
  | fuel + 1, c :: cs =>
    match srtMatchFrom (c :: cs) with
    | some (m, rem) => m :: srtFindAllGo fuel rem
    | none => srtFindAllGo fuel cs

/-- `re.findall(pattern, content)` for the SRT block pattern. -/
def findall_srt (s : List Char) : List RawMatch :=
  srtFindAllGo s.length s

/-- One entry built by the loop in `_parse_srt`. -/
structure SrtEntry where
  index : Nat
  start_time : List Char
  end_time : List Char
  text : List Char
  deriving DecidableEq, Repr

/-- The dictionary built for one regex match in `_parse_srt`. -/
def mkEntry (m : RawMatch) : SrtEntry :=
  { index := digitsToNat m.index
    start_time := m.start_time
    end_time := m.end_time
    text := pyStrip m.text }

/-- `VideoContentParser._parse_srt` applied to file content that was read
successfully: run `re.findall` and build one entry per match. -/
def parse_srt (content : List Char) : List SrtEntry :=
  (findall_srt content).map mkEntry

/-- `VideoContentParser._parse_srt` including its `try`/`except`: reading the
file may fail (`none`), in which case the function returns Python `None`. -/
def parse_srt_file (content : Option (List Char)) : Option (List SrtEntry) :=
  content.map parse_srt

/-! ## The effectful pipeline

External calls are modelled by an environment recording each call's outcome.
-/

/-- Outcome of one `subprocess.run` invocation. -/
structure ProcResult where
  returncode : Int
  stdout : String
  stderr : String
  deriving DecidableEq, Repr

/-- A subprocess invocation either completes (with an exit code), or raises
`FileNotFoundError` (executable absent), or raises another
`SubprocessError`. -/
inductive RunOutcome where
  | ok (r : ProcResult)
  | notFound
  | subprocErr
  deriving DecidableEq, Repr

/-- Outcome of the local speech engine (`recognizer.recognize_google`):
recognized text, `sr.UnknownValueError` (unintelligible),
`sr.RequestError` (service unreachable), or another exception. -/
inductive LocalOutcome where
  | ok (text : String)
  | unknownValue
  | requestError
  | otherError
  deriving DecidableEq, Repr

/-- Python exceptions that the embedded code can raise to its caller. -/
inductive PyExc where
  | fileNotFound
  | keyError (key : String)
  | ioError
  deriving DecidableEq, Repr

/-- Environment: the outcomes of all external effects of one pipeline run. -/
structure Env where
  /-- Does the input video file exist (`self.video_path.exists()`)? -/
  videoExists : Bool
  /-- Outcome of `ffmpeg -version` in `_check_dependencies`. -/
  ffmpegProbe : RunOutcome
  /-- `os.environ.get('OPENAI_API_KEY')`. -/
  envApiKey : Option String
  /-- Outcome of the `ffmpeg` audio-extraction invocation. -/
  audioRun : RunOutcome
  /-- Outcome of the OpenAI transcription call (`.error` for any exception). -/
  openaiResult : Except Unit String
  /-- Outcome of the local speech engine on the run's audio artifact. -/
  localResult : LocalOutcome
  /-- Outcome of the `ffmpeg` first-subtitle-stream copy invocation. -/
  subRun : RunOutcome
  /-- Content of the temporary SRT file, `none` if reading it fails. -/
  srtContent : Option (List Char)
  /-- Does opening/writing the JSON output file succeed? -/
  jsonWriteOk : Bool
  /-- Does opening the text output file succeed? -/
  txtWriteOk : Bool
  /-- `datetime.now()` rendered for the record. -/
  now : String

/-- Configuration state of a constructed `VideoContentParser`. -/
structure PState where
  video_path : String
  use_openai : Bool
  openai_api_key : Option String
  /-- `self.output_dir.mkdir(exist_ok=True, parents=True)` was executed. -/
  dirCreated : Bool
  mkdirParents : Bool
  mkdirExistOk : Bool
  deriving DecidableEq, Repr

/-- `check_yt_dlp_installed` (src/poc/facebook_get_video.py): runs the tool
with `--version` and `check=True`; a non-zero exit raises
`CalledProcessError` (a `SubprocessError`), and both that and
`FileNotFoundError` are caught and yield `False`. -/
def check_yt_dlp_installed (probe : RunOutcome) : Bool :=
  match probe with
  | .ok r => if r.returncode ≠ 0 then false else true
  | .notFound => false
  | .subprocErr => false

/-- `VideoContentParser._check_dependencies`: probe `ffmpeg -version`
(warning only on failure, never raising), then resolve the OpenAI
configuration, falling back to the environment variable and disabling
`use_openai` when no key is found.  Returns the adjusted
`(use_openai, openai_api_key)` together with the warnings logged. -/
def check_dependencies (env : Env) (use_openai : Bool)
    (openai_api_key : Option String) : (Bool × Option String) × List String :=
  let warn1 : List String :=
    match env.ffmpegProbe with
    | .ok r => if r.returncode ≠ 0 then ["ffmpeg is not installed or not in PATH. Some features may not work."] else []
    | _ => ["ffmpeg is not installed or not in PATH. Some features may not work."]
  if use_openai ∧ openai_api_key = none then
    match env.envApiKey with
    | some k => ((use_openai, some k), warn1)
    | none => ((false, none), warn1 ++ ["OpenAI API key not provided. Falling back to local transcription."])
  else ((use_openai, openai_api_key), warn1)

/-- `VideoContentParser.__init__`: raise `FileNotFoundError` when the video
path does not exist; otherwise create the output directory
(`mkdir(exist_ok=True, parents=True)`) and run `_check_dependencies`.
The embedding abstracts operating-system failures of `mkdir` away: the
call is recorded in the state instead. -/
def parser_init (env : Env) (video_path : String) (use_openai : Bool)
    (openai_api_key : Option String) : Except PyExc PState :=
  if env.videoExists then
    let resolved := (check_dependencies env use_openai openai_api_key).1
    .ok { video_path := video_path
          use_openai := resolved.1
          openai_api_key := resolved.2
          dirCreated := true
          mkdirParents := true
          mkdirExistOk := true }
  else .error .fileNotFound

/-- `VideoContentParser.extract_audio`: run `ffmpeg`; on a raised exception
(caught by the blanket `except`) or a non-zero exit, log an error and
return `None`; otherwise return the output path.  The second component is
the log emitted. -/
def extract_audio (env : Env) (output_path : String) :
    Option String × List String :=
  match env.audioRun with
  | .ok r =>
    if r.returncode ≠ 0 then
      (none, ["Error extracting audio: " ++ r.stderr])
    else (some output_path, ["Audio extracted successfully"])
  | .notFound => (none, ["Error extracting audio: exception"])
  | .subprocErr => (none, ["Error extracting audio: exception"])

/-- `VideoContentParser.transcribe_audio_local` with an audio path supplied:
every failure of the engine is caught and yields `None`. -/
def transcribe_audio_local (env : Env) : Option String :=
  match env.localResult with
  | .ok text => some text
  | .unknownValue => none
  | .requestError => none
  | .otherError => none

/-- `VideoContentParser.transcribe_audio_openai` with an audio path supplied:
on any exception from the remote backend, fall back to
`transcribe_audio_local` on the same audio. -/
def transcribe_audio_openai (env : Env) : Option String :=
  match env.openaiResult with
  | .ok text => some text
  | .error _ => transcribe_audio_local env

/-- `VideoContentParser.extract_subtitles`: copy the first subtitle stream;
on a non-zero exit the alternative stream enumeration runs for its side
effects only and the function returns `None`; on success, parse the
temporary SRT file (whose read failure also yields `None`). -/
def extract_subtitles (env : Env) : Option (List SrtEntry) :=
  match env.subRun with
  | .ok r =>
    if r.returncode ≠ 0 then none
    else parse_srt_file env.srtContent
  | .notFound => none
  | .subprocErr => none

/-- The `result` dictionary built by `process_video`.  An outer `none`
means the key is absent from the dictionary; `some none` means the key is
present with value Python `None`. -/
structure RunResult where
  video_path : String
  processing_time : String
  transcription : Option (Option String)
  transcription_method : Option String
  subtitles : Option (Option (List SrtEntry))
  subtitle_text : Option String
  deriving DecidableEq, Repr

/-- Python truthiness of an optional string (`None` and `''` are falsy). -/
def pyTruthyStr (v : Option String) : Bool :=
  match v with
  | none => false
  | some s => s ≠ ""

/-- Python truthiness of an optional list (`None` and `[]` are falsy). -/
def pyTruthyList (v : Option (List SrtEntry)) : Bool :=
  match v with
  | none => false
  | some l => !l.isEmpty

/-- Lines 347–372 of `process_video`: build the `result` dictionary
(everything before `_save_results`). -/
def build_record (env : Env) (st : PState) : RunResult :=
  let r0 : RunResult :=
    { video_path := st.video_path
      processing_time := env.now
      transcription := none
      transcription_method := none
      subtitles := none
      subtitle_text := none }
  let audio_path := (extract_audio env "audio.wav").1
  let r1 :=
    match audio_path with
    | some _ =>
      if st.use_openai ∧ st.openai_api_key ≠ none then
        { r0 with transcription := some (transcribe_audio_openai env)
                  transcription_method := some "openai" }
      else
        { r0 with transcription := some (transcribe_audio_local env)
                  transcription_method := some "local" }
    | none => r0
  let subtitles := extract_subtitles env
  let r2 := { r1 with subtitles := some subtitles }
  let joined := String.intercalate "\n"
    ((subtitles.getD []).map (fun e => String.mk e.text))
  if pyTruthyList subtitles then { r2 with subtitle_text := some joined }
  else r2

/-- `VideoContentParser._save_results`: write the JSON file, then the text
file.  Dictionary subscripts raise `KeyError` when the key is absent; a
failing `open` raises an I/O error.  Returns the list of files written. -/
def save_results (env : Env) (r : RunResult) : Except PyExc (List String) :=
  if ¬ env.jsonWriteOk then .error .ioError else
  if ¬ env.txtWriteOk then .error .ioError else
  match r.transcription with
  | none => .error (.keyError "transcription")
  | some tv =>
    let afterTrans : Except PyExc Unit :=
      if pyTruthyStr tv then
        match r.transcription_method with
        | none => .error (.keyError "transcription_method")
        | some _ => .ok ()
      else .ok ()
    match afterTrans with
    | .error e => .error e
    | .ok _ =>
      match r.subtitles with
      | none => .error (.keyError "subtitles")
      | some _ => .ok ["json", "txt"]

/-- `VideoContentParser.process_video`: build the record, persist it, and
return it.  Exceptions escaping `_save_results` propagate to the caller. -/
def process_video (env : Env) (st : PState) : Except PyExc RunResult :=
  let r := build_record env st
  match save_results env r with
  | .error e => .error e
  | .ok _ => .ok r

/-! ## Well-formed subtitle blocks and their rendering -/

/-- A structured subtitle block before rendering to SRT text. -/
structure SrtBlock where
  index : List Char
  start_time : List Char
  end_time : List Char
  text : List Char
  deriving DecidableEq, Repr

/-- No character of the regex class `\d` occurs. -/
def digitFree (l : List Char) : Bool :=
  l.all (fun c => !isPyDigit c)

/-- No two adjacent newline characters occur (no blank line inside). -/
def noNN : List Char → Bool
  | a :: b :: cs => !(a = '\n' && b = '\n') && noNN (b :: cs)
  | _ => true

/-- Some suffix satisfies the non-end lookahead alternative. -/
def hasStop : List Char → Bool
  | [] => false
  | l@(_ :: cs) => lookNN l || hasStop cs

/-- A well-formed block: non-empty all-digit index, well-shaped timestamps,
text with no blank line inside and at least one non-whitespace character. -/
def wfBlock (b : SrtBlock) : Bool :=
  !b.index.isEmpty && b.index.all isPyDigit &&
  tsShape b.start_time && tsShape b.end_time &&
  noNN b.text && b.text.any (fun c => !isPySpace c)

/-- Render one block without its trailing blank-line separator:
`<index>\n<start> --> <end>\n<text>`. -/
def rb0 (b : SrtBlock) : List Char :=
  b.index ++ '\n' :: (b.start_time ++
    ' ' :: '-' :: '-' :: '>' :: ' ' :: (b.end_time ++ '\n' :: b.text))

/-- Render a subtitle file: blocks separated by blank lines, with the file
either ending at the last block (end-of-file as implicit terminator,
`trailing = false`) or with a final blank-line separator
(`trailing = true`). -/
def renderSrt : List SrtBlock → Bool → List Char
  | [], _ => []
  | [b], trailing => rb0 b ++ (if trailing then ['\n', '\n'] else [])
  | b :: tl, trailing => rb0 b ++ '\n' :: '\n' :: renderSrt tl trailing

/-- The entry `_parse_srt` builds for a well-formed block. -/
def entryOf (b : SrtBlock) : SrtEntry :=
  { index := digitsToNat b.index
    start_time := b.start_time
    end_time := b.end_time
    text := pyStrip b.text }

/-- An element of a subtitle file: a well-formed block or an out-of-grammar
block (arbitrary text). -/
inductive SrtItem where
  | block (b : SrtBlock)
  | junk (g : List Char)
  deriving DecidableEq, Repr

/-- Render an element followed by its blank-line separator. -/
def renderItem : SrtItem → List Char
  | .block b => rb0 b ++ ['\n', '\n']
  | .junk g => g ++ ['\n', '\n']

/-- Render a subtitle file given as a sequence of elements. -/
def renderItems (l : List SrtItem) : List Char :=
  (l.map renderItem).flatten

/-- Well-formedness for a file element: blocks are well-formed, junk
contains no digit characters. -/
def wfItem : SrtItem → Bool
  | .block b => wfBlock b
  | .junk g => digitFree g

/-- Number of well-formed block elements. -/
def blockCount (l : List SrtItem) : Nat :=
  l.countP (fun i => match i with | .block _ => true | .junk _ => false)

/-! ## Concrete fixtures for counterexamples and witnesses -/

/-- Strict lexical order on timestamp strings (used to state the
`end_time` &gt; `start_time` comparison of the specification). -/
def tsLexLt : List Char → List Char → Bool
  | [], [] => false
  | [], _ :: _ => true
  | _ :: _, [] => false
  | x :: xs, y :: ys =>
    if x < y then true else if y < x then false else tsLexLt xs ys

/-- An environment in which every external call succeeds. -/
def baseEnv : Env :=
  { videoExists := true
    ffmpegProbe := .ok ⟨0, "", ""⟩
    envApiKey := none
    audioRun := .ok ⟨0, "", ""⟩
    openaiResult := .ok "remote text"
    localResult := .ok "hello"
    subRun := .ok ⟨0, "", ""⟩
    srtContent := some []
    jsonWriteOk := true
    txtWriteOk := true
    now := "2026-01-01 00:00:00" }

/-- Parser state for a local-only run. -/
def stLocal : PState :=
  { video_path := "video.mp4"
    use_openai := false
    openai_api_key := none
    dirCreated := true
    mkdirParents := true
    mkdirExistOk := true }

/-- Parser state for a run with the remote backend requested. -/
def stRemote : PState :=
  { stLocal with use_openai := true, openai_api_key := some "sk-key" }

/-- Audio extraction fails (e.g. the container has no audio track). -/
def envNoAudio : Env :=
  { baseEnv with audioRun := .ok ⟨1, "", "no audio stream"⟩ }

/-- The remote backend always fails; the local engine recognizes text. -/
def envRemoteFails : Env :=
  { baseEnv with openaiResult := .error () }

/-- Audio extraction succeeds but the local engine cannot understand it. -/
def envUnintelligible : Env :=
  { baseEnv with localResult := .unknownValue }

/-- The container has zero subtitle streams: the first-stream copy exits
non-zero. -/
def envNoSubs : Env :=
  { baseEnv with subRun := .ok ⟨1, "", "Stream map matches no streams"⟩ }

/-- `ffmpeg -version` probe fails. -/
def envProbeFails : Env :=
  { baseEnv with ffmpegProbe := .notFound }

def blkHi : SrtBlock :=
  { index := ['1']
    start_time := "00:00:01,000".toList
    end_time := "00:00:02,000".toList
    text := "Hi".toList }

def blkYo : SrtBlock :=
  { index := ['2']
    start_time := "00:00:03,500".toList
    end_time := "00:00:05,100".toList
    text := "Second line\nmore text".toList }

/-- A block whose `end_time` precedes its `start_time`. -/
def blkBack : SrtBlock :=
  { index := ['1']
    start_time := "00:00:02,000".toList
    end_time := "00:00:01,000".toList
    text := "Backwards".toList }

/-- An out-of-grammar block: a valid header with no text lines at all. -/
def badTailC6 : List Char :=
  "2\n00:00:03,000 --> 00:00:04,000\n\n".toList

def itemsC6 : List SrtItem :=
  [.junk "no digits here, just junk!".toList, .block blkHi,
   .junk "more junk\nspanning lines".toList, .block blkYo,
   .junk "trailing garbage".toList]

/-- The input video file does not exist. -/
def envNoVideo : Env := { baseEnv with videoExists := false }

/-! ## Character-class and scanning lemmas -/

theorem isPyDigit_not_space {c : Char} (h : isPyDigit c = true) :
    isPySpace c = false := by
  simp only [isPyDigit, Bool.and_eq_true, decide_eq_true_eq] at h
  obtain ⟨h1, h2⟩ := h
  simp only [isPySpace, Bool.or_eq_false_iff, decide_eq_false_iff_not]
  refine ⟨⟨⟨⟨⟨?_, ?_⟩, ?_⟩, ?_⟩, ?_⟩, ?_⟩ <;>
    (rintro rfl; revert h1 h2; decide)

theorem tsShape_length {t : List Char} (h : tsShape t = true) :
    t.length = 12 := by
  unfold tsShape at h
  split at h
  · simp_all
  · exact absurd h (by simp)

theorem tsShape_head {t : List Char} (h : tsShape t = true) :
    ∃ c cs, t = c :: cs ∧ isPyDigit c = true := by
  unfold tsShape at h
  split at h
  · rename_i h1 h2 c1 m1 m2 c2 s1 s2 c3 x1 x2 x3
    simp only [Bool.and_eq_true] at h
    exact ⟨h1, _, rfl, h.1.1.1.1.1.1.1.1.1.1.1⟩
  · exact absurd h (by simp)

theorem matchTs_append {t : List Char} (r : List Char)
    (h : tsShape t = true) : matchTs (t ++ r) = some (t, r) := by
  have hl := tsShape_length h
  unfold matchTs
  rw [List.take_left' hl, List.drop_left' hl, h]
  simp

theorem lazyText_cons (c : Char) (cs : List Char) :
    lazyText (c :: cs) =
      if lookNN (c :: cs) then ([], c :: cs)
      else (c :: (lazyText cs).1, (lazyText cs).2) := rfl

theorem length_dropWhile_le (p : Char → Bool) (l : List Char) :
    (l.dropWhile p).length ≤ l.length := by
  induction l with
  | nil => simp
  | cons a l ih =>
    rw [List.dropWhile_cons]
    split
    · exact Nat.le_trans ih (Nat.le_succ _)
    · exact Nat.le_refl _

theorem lazyText_snd_length (l : List Char) :
    (lazyText l).2.length ≤ l.length := by
  induction l with
  | nil => simp [lazyText]
  | cons c cs ih =>
    rw [lazyText_cons]
    split
    · exact Nat.le_refl _
    · exact Nat.le_trans ih (Nat.le_succ _)

theorem dropWhile_ne_nil_of_any {p : Char → Bool} {l : List Char}
    (h : l.any (fun c => !p c) = true) : l.dropWhile p ≠ [] := by
  induction l with
  | nil => simp at h
  | cons a l ih =>
    rw [List.dropWhile_cons]
    split
    · next hp =>
      simp only [List.any_cons, hp, Bool.not_true, Bool.false_or] at h
      exact ih h
    · simp

theorem dropWhile_append_stop {p : Char → Bool} {l : List Char}
    (r : List Char) (h : l.dropWhile p ≠ []) :
    (l ++ r).dropWhile p = l.dropWhile p ++ r := by
  rw [List.dropWhile_append]
  simp [List.isEmpty_iff, h]

theorem takeWhile_append_stop {p : Char → Bool} {l : List Char}
    (r : List Char) (h : l.dropWhile p ≠ []) :
    (l ++ r).takeWhile p = l.takeWhile p := by
  rw [List.takeWhile_append]
  have hlen : (l.takeWhile p).length ≠ l.length := by
    intro hcon
    have := List.takeWhile_append_dropWhile (p := p) (l := l)
    have hl : (l.takeWhile p).length + (l.dropWhile p).length = l.length := by
      rw [← List.length_append, this]
    have : (l.dropWhile p).length = 0 := by omega
    exact h (List.eq_nil_of_length_eq_zero this)
  simp [hlen]

theorem hasStop_false_of_digitFree {r : List Char}
    (h : digitFree r = true) : hasStop r = false := by
  induction r with
  | nil => rfl
  | cons c cs ih =>
    simp only [digitFree, List.all_cons, Bool.and_eq_true] at h
    have htail : hasStop cs = false := ih h.2
    have hlook : lookNN (c :: cs) = false := by
      match cs with
      | [] => rfl
      | [x] => rfl
      | x :: y :: cs' =>
        have hy : isPyDigit y = false := by
          have := h.2
          simp only [digitFree, List.all_cons, Bool.and_eq_true] at this
          simpa using this.2.1
        simp [lookNN, hy]
    simp [hasStop, hlook, htail]

theorem noNN_tail {a : Char} {l : List Char} (h : noNN (a :: l) = true) :
    noNN l = true := by
  match l with
  | [] => rfl
  | b :: cs =>
    rw [noNN, Bool.and_eq_true] at h
    exact h.2

theorem hasStop_append_false {t r : List Char} (h1 : noNN t = true)
    (h2 : digitFree r = true) : hasStop (t ++ r) = false := by
  induction t with
  | nil => exact hasStop_false_of_digitFree h2
  | cons c cs ih =>
    have htail : hasStop (cs ++ r) = false := ih (noNN_tail h1)
    have hlook : lookNN (c :: (cs ++ r)) = false := by
      match cs with
      | [] =>
        match r, h2 with
        | [], _ => rfl
        | [x], _ => rfl
        | x :: y :: r', h2 =>
          have hy : isPyDigit y = false := by
            simp only [digitFree, List.all_cons, Bool.and_eq_true] at h2
            simpa using h2.2.1
          simp [lookNN, hy]
      | [x] =>
        match r, h2 with
        | [], _ => rfl
        | y :: r', h2 =>
          have hy : isPyDigit y = false := by
            simp only [digitFree, List.all_cons, Bool.and_eq_true] at h2
            simpa using h2.1
          simp [lookNN, hy]
      | x :: y :: cs' =>
        rw [noNN, Bool.and_eq_true] at h1
        have hnn := h1.1
        by_cases hc : c = '\n'
        · by_cases hx : x = '\n'
          · subst hc; subst hx; simp at hnn
          · simp [lookNN, hx]
        · simp [lookNN, hc]
    simp [hasStop, hlook, htail]

theorem lazyText_of_no_stop {l : List Char} (h : hasStop l = false) :
    lazyText l = (l, []) := by
  induction l with
  | nil => rfl
  | cons c cs ih =>
    simp only [hasStop, Bool.or_eq_false_iff] at h
    rw [lazyText_cons, h.1, if_neg (by simp)]
    rw [ih h.2]

theorem lazyText_stop_exact_nil {m : List Char} {d : Char} (r : List Char)
    (h2 : digitFree m = true) (h3 : isPyDigit d = true) :
    lazyText (m ++ '\n' :: '\n' :: d :: r) = (m, '\n' :: '\n' :: d :: r) := by
  induction m with
  | nil =>
    rw [List.nil_append, lazyText_cons]
    simp [lookNN, h3]
  | cons c ms ih =>
    simp only [digitFree, List.all_cons, Bool.and_eq_true] at h2
    have hlook : lookNN (c :: (ms ++ '\n' :: '\n' :: d :: r)) = false := by
      match ms with
      | [] =>
        have hnl : isPyDigit '\n' = false := by decide
        simp [lookNN, hnl]
      | [x] =>
        have hnl : isPyDigit '\n' = false := by decide
        simp [lookNN, hnl]
      | x :: y :: ms' =>
        have hy : isPyDigit y = false := by
          have h4 := h2.2
          simp only [List.all_cons, Bool.and_eq_true] at h4
          simpa using h4.2.1
        simp [lookNN, hy]
    rw [List.cons_append, lazyText_cons, if_neg (by simp [hlook])]
    rw [ih h2.2]

theorem lazyText_stop_exact {t m : List Char} {d : Char} (r : List Char)
    (h1 : noNN t = true) (h2 : digitFree m = true) (h3 : isPyDigit d = true) :
    lazyText (t ++ (m ++ '\n' :: '\n' :: d :: r)) =
      (t ++ m, '\n' :: '\n' :: d :: r) := by
  induction t with
  | nil => simpa using lazyText_stop_exact_nil r h2 h3
  | cons c cs ih =>
    have hrec := ih (noNN_tail h1)
    have hlook : lookNN (c :: (cs ++ (m ++ '\n' :: '\n' :: d :: r))) = false := by
      match cs with
      | [] =>
        match m with
        | [] =>
          have hnl : isPyDigit '\n' = false := by decide
          simp [lookNN, hnl]
        | [z] =>
          have hnl : isPyDigit '\n' = false := by decide
          simp [lookNN, hnl]
        | z :: w :: m' =>
          have hw : isPyDigit w = false := by
            simp only [digitFree, List.all_cons, Bool.and_eq_true] at h2
            simpa using h2.2.1
          simp [lookNN, hw]
      | [x] =>
        match m with
        | [] =>
          have hnl : isPyDigit '\n' = false := by decide
          simp [lookNN, hnl]
        | z :: m' =>
          have hz : isPyDigit z = false := by
            simp only [digitFree, List.all_cons, Bool.and_eq_true] at h2
            simpa using h2.1
          simp [lookNN, hz]
      | x :: y :: cs' =>
        rw [noNN, Bool.and_eq_true] at h1
        have hnn := h1.1
        by_cases hc : c = '\n'
        · by_cases hx : x = '\n'
          · subst hc; subst hx; simp at hnn
          · simp [lookNN, hx]
        · simp [lookNN, hc]
    rw [List.cons_append, lazyText_cons, if_neg (by simp [hlook]), hrec]
    simp

theorem matchTs_some_length {l t r : List Char}
    (h : matchTs l = some (t, r)) : r.length ≤ l.length := by
  unfold matchTs at h
  split at h
  · injection h with h'
    have hr : l.drop 12 = r := congrArg Prod.snd h'
    rw [← hr, List.length_drop]
    omega
  · exact absurd h (by simp)

theorem matchArrow_some_length {l r : List Char}
    (h : matchArrow l = some r) : r.length ≤ l.length := by
  unfold matchArrow at h
  split at h
  · injection h with h'
    subst h'
    simp
    omega
  · exact absurd h (by simp)

theorem srtMatchFrom_rem_lt {s : List Char} {m : RawMatch} {rem : List Char}
    (h : srtMatchFrom s = some (m, rem)) : rem.length < s.length := by
  have hsplit : (s.takeWhile isPyDigit).length + (s.dropWhile isPyDigit).length
      = s.length := by
    rw [← List.length_append, List.takeWhile_append_dropWhile]
  simp only [srtMatchFrom] at h
  split at h
  · exact absurd h (by simp)
  · next hne =>
    have hds : 1 ≤ (s.takeWhile isPyDigit).length := by
      rcases hd : s.takeWhile isPyDigit with _ | ⟨a, l⟩
      · rw [hd] at hne; simp at hne
      · simp
    have hr1 : (s.dropWhile isPyDigit).length < s.length := by omega
    split at h
    · exact absurd h (by simp)
    · split at h
      · exact absurd h (by simp)
      · next t1 r3 hts1 =>
        have hr3 := matchTs_some_length hts1
        split at h
        · exact absurd h (by simp)
        · split at h
          · exact absurd h (by simp)
          · next r5 harr =>
            have hr5 := matchArrow_some_length harr
            split at h
            · exact absurd h (by simp)
            · split at h
              · exact absurd h (by simp)
              · next t2 r7 hts2 =>
                have hr7 := matchTs_some_length hts2
                split at h
                · exact absurd h (by simp)
                · injection h with h'
                  have hrem := congrArg Prod.snd h'
                  simp only at hrem
                  have h8 := lazyText_snd_length
                    ((s.dropWhile isPyDigit).dropWhile isPySpace
                      |> fun r2 => r7.dropWhile isPySpace)
                  have hle1 := length_dropWhile_le isPySpace (s.dropWhile isPyDigit)
                  have hle2 := length_dropWhile_le isPySpace r3
                  have hle3 := length_dropWhile_le isPySpace r5
                  have hle4 := length_dropWhile_le isPySpace r7
                  have hlz := lazyText_snd_length (r7.dropWhile isPySpace)
                  rw [← hrem] at *
                  omega

theorem srtFindAllGo_nil (f : Nat) : srtFindAllGo f [] = [] := by
  cases f <;> rfl

theorem srtFindAllGo_fuel : ∀ (f1 : Nat) (s : List Char) (f2 : Nat),
    s.length ≤ f1 → s.length ≤ f2 → srtFindAllGo f1 s = srtFindAllGo f2 s := by
  intro f1
  induction f1 with
  | zero =>
    intro s f2 h1 _
    have : s = [] := List.length_eq_zero.mp (Nat.le_zero.mp h1)
    subst this
    rw [srtFindAllGo_nil, srtFindAllGo_nil]
  | succ f1 ih =>
    intro s f2 h1 h2
    match s with
    | [] => rw [srtFindAllGo_nil, srtFindAllGo_nil]
    | c :: cs =>
      match f2 with
      | 0 => simp at h2
      | f2 + 1 =>
        simp only [srtFindAllGo]
        cases hm : srtMatchFrom (c :: cs) with
        | some p =>
          obtain ⟨m, rem⟩ := p
          have hlt := srtMatchFrom_rem_lt hm
          simp only [List.length_cons] at h1 h2 hlt
          dsimp only
          rw [ih rem f2 (by omega) (by omega)]
        | none =>
          simp only [List.length_cons] at h1 h2
          dsimp only
          exact ih cs f2 (by omega) (by omega)

theorem findall_cons_some {c : Char} {cs : List Char} {m : RawMatch}
    {rem : List Char} (h : srtMatchFrom (c :: cs) = some (m, rem)) :
    findall_srt (c :: cs) = m :: findall_srt rem := by
  have hlt := srtMatchFrom_rem_lt h
  simp only [List.length_cons] at hlt
  unfold findall_srt
  simp only [List.length_cons, srtFindAllGo, h]
  rw [srtFindAllGo_fuel cs.length rem rem.length (by omega) (Nat.le_refl _)]

theorem findall_cons_none {c : Char} {cs : List Char}
    (h : srtMatchFrom (c :: cs) = none) :
    findall_srt (c :: cs) = findall_srt cs := by
  unfold findall_srt
  simp only [List.length_cons, srtFindAllGo, h]

theorem srtMatchFrom_none_of_head {c : Char} (cs : List Char)
    (h : isPyDigit c = false) : srtMatchFrom (c :: cs) = none := by
  simp only [srtMatchFrom, List.takeWhile_cons_of_neg (by simp [h] : ¬ isPyDigit c = true)]
  simp

theorem findall_skip {l : List Char} (r : List Char)
    (h : digitFree l = true) : findall_srt (l ++ r) = findall_srt r := by
  induction l with
  | nil => simp
  | cons c cs ih =>
    simp only [digitFree, List.all_cons, Bool.and_eq_true] at h
    have hc : isPyDigit c = false := by simpa using h.1
    rw [List.cons_append,
      findall_cons_none (srtMatchFrom_none_of_head (cs ++ r) hc)]
    exact ih h.2

theorem wfBlock_parts {b : SrtBlock} (h : wfBlock b = true) :
    b.index.isEmpty = false ∧ (∀ c ∈ b.index, isPyDigit c = true) ∧
    tsShape b.start_time = true ∧ tsShape b.end_time = true ∧
    noNN b.text = true ∧ b.text.any (fun c => !isPySpace c) = true := by
  simp only [wfBlock, Bool.and_eq_true] at h
  obtain ⟨⟨⟨⟨⟨h1, h2⟩, h3⟩, h4⟩, h5⟩, h6⟩ := h
  refine ⟨by simpa using h1, ?_, h3, h4, h5, h6⟩
  intro c hc
  exact List.all_eq_true.mp h2 c hc

theorem srtMatchFrom_rb0 {b : SrtBlock} (X : List Char)
    (h : wfBlock b = true) :
    srtMatchFrom (rb0 b ++ X) =
      some ({ index := b.index, start_time := b.start_time,
              end_time := b.end_time,
              text := (lazyText (b.text.dropWhile isPySpace ++ X)).1 },
            (lazyText (b.text.dropWhile isPySpace ++ X)).2) := by
  obtain ⟨hne, hdig, hst, hen, _, hany⟩ := wfBlock_parts h
  obtain ⟨sc, scs, hsteq, hsd⟩ := tsShape_head hst
  obtain ⟨ec, ecs, heneq, hed⟩ := tsShape_head hen
  have hscs : isPySpace sc = false := isPyDigit_not_space hsd
  have hecs : isPySpace ec = false := isPyDigit_not_space hed
  have hnorm : rb0 b ++ X = b.index ++ '\n' :: (b.start_time ++
      ' ' :: '-' :: '-' :: '>' :: ' ' :: (b.end_time ++
        '\n' :: (b.text ++ X))) := by
    simp [rb0, List.append_assoc]
  have htext_drop : (b.text ++ X).dropWhile isPySpace
      = b.text.dropWhile isPySpace ++ X :=
    dropWhile_append_stop X (dropWhile_ne_nil_of_any hany)
  rw [hnorm]
  simp only [srtMatchFrom]
  rw [List.takeWhile_append_of_pos hdig, List.dropWhile_append_of_pos hdig,
    List.takeWhile_cons_of_neg (by decide : ¬ isPyDigit '\n' = true),
    List.dropWhile_cons_of_neg (by decide : ¬ isPyDigit '\n' = true),
    List.append_nil]
  rw [List.takeWhile_cons_of_pos (by decide : isPySpace '\n' = true),
    List.dropWhile_cons_of_pos (by decide : isPySpace '\n' = true)]
  rw [hsteq, List.cons_append,
    List.takeWhile_cons_of_neg (by simp [hscs]),
    List.dropWhile_cons_of_neg (by simp [hscs]),
    ← List.cons_append, ← hsteq]
  rw [matchTs_append _ hst]
  dsimp only
  rw [List.takeWhile_cons_of_pos (by decide : isPySpace ' ' = true),
    List.dropWhile_cons_of_pos (by decide : isPySpace ' ' = true),
    List.takeWhile_cons_of_neg (by decide : ¬ isPySpace '-' = true),
    List.dropWhile_cons_of_neg (by decide : ¬ isPySpace '-' = true)]
  simp only [matchArrow]
  rw [List.takeWhile_cons_of_pos (by decide : isPySpace ' ' = true),
    List.dropWhile_cons_of_pos (by decide : isPySpace ' ' = true)]
  rw [heneq, List.cons_append,
    List.takeWhile_cons_of_neg (by simp [hecs]),
    List.dropWhile_cons_of_neg (by simp [hecs]),
    ← List.cons_append, ← heneq]
  rw [matchTs_append _ hen]
  dsimp only
  rw [List.takeWhile_cons_of_pos (by decide : isPySpace '\n' = true),
    List.dropWhile_cons_of_pos (by decide : isPySpace '\n' = true)]
  rw [htext_drop]
  have hie : b.index.isEmpty = false := hne
  simp [hie]

theorem pyStrip_dropWhile (t : List Char) :
    pyStrip (t.dropWhile isPySpace) = pyStrip t := by
  unfold pyStrip
  rw [List.dropWhile_idempotent]

theorem dropWhile_eq_nil_of_all {p : Char → Bool} {l : List Char}
    (h : l.all p = true) : l.dropWhile p = [] := by
  induction l with
  | nil => rfl
  | cons a l ih =>
    simp only [List.all_cons, Bool.and_eq_true] at h
    rw [List.dropWhile_cons_of_pos h.1]
    exact ih h.2

theorem pyStrip_append_space {u v : List Char}
    (hv : v.all isPySpace = true) : pyStrip (u ++ v) = pyStrip u := by
  unfold pyStrip
  by_cases h : u.dropWhile isPySpace = []
  · rw [List.dropWhile_append, h]
    simp only [List.isEmpty_nil, if_pos]
    rw [dropWhile_eq_nil_of_all hv]
  · rw [dropWhile_append_stop v h, List.reverse_append,
      List.dropWhile_append_of_pos]
    intro a ha
    rw [List.mem_reverse] at ha
    exact List.all_eq_true.mp hv a ha

theorem noNN_dropWhile {p : Char → Bool} {l : List Char}
    (h : noNN l = true) : noNN (l.dropWhile p) = true := by
  induction l with
  | nil => rfl
  | cons a l ih =>
    rw [List.dropWhile_cons]
    split
    · exact ih (noNN_tail h)
    · exact h

theorem findall_nil : findall_srt [] = [] := rfl

theorem findall_step {s : List Char} {m : RawMatch} {rem : List Char}
    (hne : s ≠ []) (h : srtMatchFrom s = some (m, rem)) :
    findall_srt s = m :: findall_srt rem := by
  match s, hne with
  | c :: cs, _ => exact findall_cons_some h

theorem rb0_append_ne_nil (b : SrtBlock) (X : List Char) :
    rb0 b ++ X ≠ [] := by
  unfold rb0
  intro hcon
  have := congrArg List.length hcon
  simp at this

theorem renderSrt_cons_shape (b2 : SrtBlock) (tl : List SrtBlock)
    (trailing : Bool) :
    ∃ Y, renderSrt (b2 :: tl) trailing = rb0 b2 ++ Y := by
  match tl with
  | [] => exact ⟨_, rfl⟩
  | t :: ts => exact ⟨_, rfl⟩

theorem block_head_digit {b : SrtBlock} (h : wfBlock b = true) (Y : List Char) :
    ∃ d r', rb0 b ++ Y = d :: r' ∧ isPyDigit d = true := by
  obtain ⟨hne, hdig, _, _, _, _⟩ := wfBlock_parts h
  cases hb : b.index with
  | nil => rw [hb] at hne; simp at hne
  | cons i0 is =>
    have hshape : rb0 b ++ Y = i0 :: (is ++ ('\n' :: (b.start_time ++
        ' ' :: '-' :: '-' :: '>' :: ' ' :: (b.end_time ++ '\n' :: b.text))) ++ Y) := by
      simp [rb0, hb]
    exact ⟨i0, _, hshape, hdig i0 (by rw [hb]; simp)⟩

/-- Core correctness of `_parse_srt` on a rendered sequence of well-formed
blocks: one entry per block, in order, with the block's text
whitespace-trimmed. -/
theorem parse_renderSrt (bs : List SrtBlock) (trailing : Bool)
    (h : ∀ b ∈ bs, wfBlock b = true) :
    parse_srt (renderSrt bs trailing) = bs.map entryOf := by
  induction bs with
  | nil => cases trailing <;> rfl
  | cons b tl ih =>
    have hb : wfBlock b = true := h b (by simp)
    obtain ⟨_, _, _, _, hnn, hany⟩ := wfBlock_parts hb
    have hnn' : noNN (b.text.dropWhile isPySpace) = true := noNN_dropWhile hnn
    match tl with
    | [] =>
      have hren : renderSrt [b] trailing
          = rb0 b ++ (if trailing then ['\n', '\n'] else []) := rfl
      rw [hren]
      have hmatch := srtMatchFrom_rb0 (if trailing then ['\n', '\n'] else []) hb
      have hstop : hasStop (b.text.dropWhile isPySpace ++
          (if trailing then ['\n', '\n'] else [])) = false := by
        apply hasStop_append_false hnn'
        cases trailing <;> decide
      rw [lazyText_of_no_stop hstop] at hmatch
      dsimp only at hmatch
      rw [parse_srt, findall_step (rb0_append_ne_nil b _) hmatch]
      rw [findall_nil]
      have htxt : pyStrip (b.text.dropWhile isPySpace ++
          (if trailing then ['\n', '\n'] else [])) = pyStrip b.text := by
        rw [pyStrip_append_space (by cases trailing <;> decide)]
        exact pyStrip_dropWhile b.text
      simp [mkEntry, entryOf, htxt]
    | b2 :: tl' =>
      have hren : renderSrt (b :: b2 :: tl') trailing
          = rb0 b ++ '\n' :: '\n' :: renderSrt (b2 :: tl') trailing := rfl
      rw [hren]
      obtain ⟨Y, hY⟩ := renderSrt_cons_shape b2 tl' trailing
      obtain ⟨d, r', hdr, hd⟩ := block_head_digit (h b2 (by simp)) Y
      have hmatch := srtMatchFrom_rb0
        ('\n' :: '\n' :: renderSrt (b2 :: tl') trailing) hb
      have hlz : lazyText (b.text.dropWhile isPySpace ++
          '\n' :: '\n' :: renderSrt (b2 :: tl') trailing)
          = (b.text.dropWhile isPySpace,
             '\n' :: '\n' :: renderSrt (b2 :: tl') trailing) := by
        rw [hY, hdr]
        have := lazyText_stop_exact (t := b.text.dropWhile isPySpace)
          (m := []) (d := d) r' hnn' (by decide) hd
        simpa using this
      rw [hlz] at hmatch
      rw [parse_srt, findall_step (rb0_append_ne_nil b _) hmatch]
      have hskip : findall_srt ('\n' :: '\n' :: renderSrt (b2 :: tl') trailing)
          = findall_srt (renderSrt (b2 :: tl') trailing) := by
        have := findall_skip (l := ['\n', '\n'])
          (renderSrt (b2 :: tl') trailing) (by decide)
        simpa using this
      rw [hskip]
      have hrest := ih (fun x hx => h x (by simp [hx]))
      rw [parse_srt] at hrest
      rw [List.map_cons, hrest]
      simp [mkEntry, entryOf, pyStrip_dropWhile]

theorem renderItems_nil : renderItems [] = [] := rfl

theorem renderItems_cons (i : SrtItem) (tl : List SrtItem) :
    renderItems (i :: tl) = renderItem i ++ renderItems tl := by
  simp [renderItems]

theorem digitFree_append {a b : List Char} (ha : digitFree a = true)
    (hb : digitFree b = true) : digitFree (a ++ b) = true := by
  simp only [digitFree, List.all_append, Bool.and_eq_true]
  exact ⟨ha, hb⟩

theorem blockCount_junk (g : List Char) (tl : List SrtItem) :
    blockCount (SrtItem.junk g :: tl) = blockCount tl := by
  simp [blockCount]

theorem blockCount_block (b : SrtBlock) (tl : List SrtItem) :
    blockCount (SrtItem.block b :: tl) = blockCount tl + 1 := by
  simp [blockCount]

/-- Decompose the tail after a block: either only junk remains (and the
rendering is digit-free), or a digit-free region is followed by the next
block. -/
theorem junk_decomp : ∀ (tl : List SrtItem), (∀ i ∈ tl, wfItem i = true) →
    (digitFree (renderItems tl) = true ∧ blockCount tl = 0) ∨
    (∃ m b2 tl2, '\n' :: '\n' :: renderItems tl
        = m ++ '\n' :: '\n' :: renderItems (SrtItem.block b2 :: tl2) ∧
      digitFree m = true ∧ wfBlock b2 = true ∧
      (∀ i ∈ tl2, wfItem i = true) ∧
      blockCount tl = blockCount (SrtItem.block b2 :: tl2) ∧
      tl2.length < tl.length) := by
  intro tl hwf
  induction tl with
  | nil => exact Or.inl ⟨rfl, rfl⟩
  | cons i tl' ih =>
    match i with
    | .block b2 =>
      have hbb : wfBlock b2 = true := hwf (SrtItem.block b2) (by simp)
      refine Or.inr ⟨[], b2, tl', by simp, rfl, hbb, ?_, rfl, by simp⟩
      exact fun x hx => hwf x (by simp [hx])
    | .junk g =>
      have hg : digitFree g = true := hwf (SrtItem.junk g) (by simp)
      have hwf' : ∀ x ∈ tl', wfItem x = true := fun x hx => hwf x (by simp [hx])
      rcases ih hwf' with ⟨hdf, hbc⟩ | ⟨m, b2, tl2, heq, hm, hb2, hwf2, hbc, hlt⟩
      · refine Or.inl ⟨?_, by rw [blockCount_junk]; exact hbc⟩
        rw [renderItems_cons]
        refine digitFree_append (digitFree_append hg (by decide)) hdf
      · refine Or.inr ⟨'\n' :: '\n' :: (g ++ m), b2, tl2, ?_, ?_, hb2, hwf2,
          by rw [blockCount_junk]; exact hbc,
          by simp only [List.length_cons]; omega⟩
        · rw [renderItems_cons]
          simp only [renderItem, List.append_assoc, List.cons_append, List.nil_append]
          rw [heq]
        · show digitFree (['\n', '\n'] ++ (g ++ m)) = true
          exact digitFree_append (by decide) (digitFree_append hg hm)

/-- Count correctness of the scanner on a rendered sequence of well-formed
blocks and digit-free out-of-grammar blocks: one match per well-formed
block. -/
theorem findall_renderItems_len : ∀ (n : Nat) (items : List SrtItem),
    items.length ≤ n → (∀ i ∈ items, wfItem i = true) →
    (findall_srt (renderItems items)).length = blockCount items := by
  intro n
  induction n with
  | zero =>
    intro items hlen _
    have : items = [] := List.length_eq_zero.mp (Nat.le_zero.mp hlen)
    subst this
    rfl
  | succ n ih =>
    intro items hlen hwf
    match items with
    | [] => rfl
    | .junk g :: tl =>
      have hg : digitFree g = true := hwf (SrtItem.junk g) (by simp)
      rw [renderItems_cons]
      simp only [renderItem]
      rw [List.append_assoc, findall_skip _ hg,
        findall_skip _ (by decide : digitFree ['\n', '\n'] = true)]
      rw [blockCount_junk]
      exact ih tl (by simp at hlen; omega) (fun x hx => hwf x (by simp [hx]))
    | .block b :: tl =>
      have hb : wfBlock b = true := hwf (SrtItem.block b) (by simp)
      obtain ⟨_, _, _, _, hnn, hany⟩ := wfBlock_parts hb
      have hnn' : noNN (b.text.dropWhile isPySpace) = true := noNN_dropWhile hnn
      have hren : renderItems (SrtItem.block b :: tl)
          = rb0 b ++ '\n' :: '\n' :: renderItems tl := by
        rw [renderItems_cons]
        simp [renderItem, List.append_assoc]
      rw [hren]
      have hmatch := srtMatchFrom_rb0 ('\n' :: '\n' :: renderItems tl) hb
      rcases junk_decomp tl (fun x hx => hwf x (by simp [hx])) with
        ⟨hdf, hbc⟩ | ⟨m, b2, tl2, heq, hm, hb2, hwf2, hbc, hlt⟩
      · have hr : digitFree ('\n' :: '\n' :: renderItems tl) = true := by
          show digitFree (['\n', '\n'] ++ renderItems tl) = true
          exact digitFree_append (by decide) hdf
        have hstop : hasStop (b.text.dropWhile isPySpace ++
            '\n' :: '\n' :: renderItems tl) = false :=
          hasStop_append_false hnn' hr
        rw [lazyText_of_no_stop hstop] at hmatch
        dsimp only at hmatch
        rw [findall_step (rb0_append_ne_nil b _) hmatch, findall_nil]
        rw [blockCount_block, hbc]
        simp
      · obtain ⟨Y, hY⟩ := renderSrt_cons_shape b2 [] true
        have hren2 : ∃ Y2, renderItems (SrtItem.block b2 :: tl2)
            = rb0 b2 ++ Y2 := by
          rw [renderItems_cons]
          exact ⟨['\n', '\n'] ++ renderItems tl2,
            by simp [renderItem, List.append_assoc]⟩
        obtain ⟨Y2, hY2⟩ := hren2
        obtain ⟨d, r', hdr, hd⟩ := block_head_digit hb2 Y2
        have hlz : lazyText (b.text.dropWhile isPySpace ++
            '\n' :: '\n' :: renderItems tl)
            = (b.text.dropWhile isPySpace ++ m,
               '\n' :: '\n' :: renderItems (SrtItem.block b2 :: tl2)) := by
          rw [heq, hY2, hdr]
          exact lazyText_stop_exact r' hnn' hm hd
        rw [hlz] at hmatch
        dsimp only at hmatch
        rw [findall_step (rb0_append_ne_nil b _) hmatch]
        have hskip : findall_srt ('\n' :: '\n' ::
            renderItems (SrtItem.block b2 :: tl2))
            = findall_srt (renderItems (SrtItem.block b2 :: tl2)) := by
          have := findall_skip (l := ['\n', '\n'])
            (renderItems (SrtItem.block b2 :: tl2)) (by decide)
          simpa using this
        rw [hskip]
        have hlen2 : (SrtItem.block b2 :: tl2).length ≤ n := by
          simp at hlen ⊢
          omega
        have := ih (SrtItem.block b2 :: tl2) hlen2
          (fun x hx => by
            rcases List.mem_cons.mp hx with rfl | hx2
            · exact hb2
            · exact hwf2 x hx2)
        simp only [List.length_cons, this]
        have e1 := blockCount_block b2 tl2
        have e2 := blockCount_block b tl
        omega

/-! ## Projections of the record built by `process_video` -/

theorem build_record_transcription (env : Env) (st : PState) :
    (build_record env st).transcription =
      if ((extract_audio env "audio.wav").1).isSome then
        some (if st.use_openai ∧ st.openai_api_key ≠ none
              then transcribe_audio_openai env
              else transcribe_audio_local env)
      else none := by
  simp only [build_record]
  cases ha : (extract_audio env "audio.wav").1 with
  | none =>
    dsimp only
    split <;> rfl
  | some p =>
    dsimp only
    split <;> split <;> rfl

theorem build_record_method (env : Env) (st : PState) :
    (build_record env st).transcription_method =
      if ((extract_audio env "audio.wav").1).isSome then
        some (if st.use_openai ∧ st.openai_api_key ≠ none
              then "openai" else "local")
      else none := by
  simp only [build_record]
  cases ha : (extract_audio env "audio.wav").1 with
  | none =>
    dsimp only
    split <;> rfl
  | some p =>
    dsimp only
    split <;> split <;> rfl

theorem build_record_subtitles (env : Env) (st : PState) :
    (build_record env st).subtitles = some (extract_subtitles env) := by
  simp only [build_record]
  cases ha : (extract_audio env "audio.wav").1 <;>
    · dsimp only
      split <;> first | rfl | (split <;> rfl)

theorem build_record_subtitle_text (env : Env) (st : PState) :
    (build_record env st).subtitle_text =
      if pyTruthyList (extract_subtitles env) then
        some (String.intercalate "\n"
          (((extract_subtitles env).getD []).map (fun e => String.mk e.text)))
      else none := by
  simp only [build_record]
  cases ha : (extract_audio env "audio.wav").1 <;>
    · dsimp only
      split <;> first | rfl | (split <;> rfl)


/-! ## Claim theorems -/

/-- C1: the claim says that when audio extraction fails the run still
reaches the persisted state with both output files written and no
exception.  The code disagrees: `extract_audio` does return the failure
marker, but `_save_results` reads `result['transcription']` with a plain
subscript, and `process_video` only sets that key when an audio path was
obtained, so the run raises `KeyError('transcription')` while writing the
text file (after the JSON file was already written).  This theorem
evaluates the embedded code at the failing input. -/
theorem c1_keyerror_when_audio_fails :
    (extract_audio envNoAudio "audio.wav").1 = none ∧
    (build_record envNoAudio stLocal).transcription = none ∧
    process_video envNoAudio stLocal
      = .error (.keyError "transcription") := by
  refine ⟨rfl, rfl, rfl⟩

/-- C2 counterexample: with the remote backend requested and always
failing, the recorded transcription text does equal the local-only text,
but the recorded method tag stays `"openai"`, whereas a local-only run
records `"local"` — so the full recorded result (text and method) differs
from a local-only run, falsifying the claim as stated. -/
theorem c2_counterexample :
    (build_record envRemoteFails stRemote).transcription = some (some "hello") ∧
    (build_record envRemoteFails stLocal).transcription = some (some "hello") ∧
    (build_record envRemoteFails stRemote).transcription_method = some "openai" ∧
    (build_record envRemoteFails stLocal).transcription_method = some "local" ∧
    (build_record envRemoteFails stRemote).transcription_method
      ≠ (build_record envRemoteFails stLocal).transcription_method := by
  refine ⟨rfl, rfl, rfl, rfl, by decide⟩

/-- C2 amended: when the remote backend always fails, the transcription
TEXT recorded equals exactly what a local-only run records for the same
audio (fallback determinism), but the method tag remains `"openai"` while
the local-only run records `"local"`. -/
theorem c2_fallback_text_equals_local (env : Env) (st : PState)
    (r : ProcResult) (huse : st.use_openai = true)
    (hkey : st.openai_api_key ≠ none)
    (hrem : env.openaiResult = .error ())
    (haud : env.audioRun = .ok r) (hrc : r.returncode = 0) :
    transcribe_audio_openai env = transcribe_audio_local env ∧
    (build_record env st).transcription
      = (build_record env { st with use_openai := false }).transcription ∧
    (build_record env st).transcription_method = some "openai" ∧
    (build_record env { st with use_openai := false }).transcription_method
      = some "local" := by
  have htr : transcribe_audio_openai env = transcribe_audio_local env := by
    unfold transcribe_audio_openai
    rw [hrem]
  have haok : (extract_audio env "audio.wav").1 = some "audio.wav" := by
    simp [extract_audio, haud, hrc]
  refine ⟨htr, ?_, ?_, ?_⟩
  · rw [build_record_transcription, build_record_transcription, haok]
    simp [huse, hkey, htr]
  · rw [build_record_method, haok]
    simp [huse, hkey]
  · rw [build_record_method, haok]
    simp

theorem c2_fallback_witness :
    stRemote.use_openai = true ∧
    stRemote.openai_api_key ≠ none ∧
    envRemoteFails.openaiResult = .error () ∧
    envRemoteFails.audioRun = .ok ⟨0, "", ""⟩ ∧
    ((0 : Int) = 0) ∧
    ((build_record envRemoteFails stRemote).transcription
      = (build_record envRemoteFails
          { stRemote with use_openai := false }).transcription ∧
     (build_record envRemoteFails stRemote).transcription_method
      = some "openai") :=
  ⟨rfl, by decide, rfl, rfl, rfl,
    ((c2_fallback_text_equals_local envRemoteFails stRemote ⟨0, "", ""⟩
      rfl (by decide) rfl rfl rfl).2.1),
    ((c2_fallback_text_equals_local envRemoteFails stRemote ⟨0, "", ""⟩
      rfl (by decide) rfl rfl rfl).2.2.1)⟩

/-- C3 counterexample: the claim says a failed transcription is recorded
with no method tag.  In the code, when audio extraction succeeds the
method tag is always written, even when the transcription itself is the
failure value `None`: here the local engine raises `UnknownValueError`,
the record stores `transcription = None` and still
`transcription_method = "local"`. -/
theorem c3_counterexample :
    (build_record envUnintelligible stLocal).transcription = some none ∧
    (build_record envUnintelligible stLocal).transcription_method
      = some "local" := by
  refine ⟨rfl, rfl⟩

/-- C3 amended: whenever audio extraction succeeds, the record stores the
backend's result verbatim (possibly `None`, possibly empty) and ALWAYS
stores the method tag alongside it — the tag is present even for a failed
or empty transcription. -/
theorem c3_record_always_tags_method (env : Env) (st : PState)
    (r : ProcResult) (haud : env.audioRun = .ok r) (hrc : r.returncode = 0) :
    (build_record env st).transcription
      = some (if st.use_openai ∧ st.openai_api_key ≠ none
              then transcribe_audio_openai env
              else transcribe_audio_local env) ∧
    (build_record env st).transcription_method
      = some (if st.use_openai ∧ st.openai_api_key ≠ none
              then "openai" else "local") := by
  have haok : (extract_audio env "audio.wav").1 = some "audio.wav" := by
    simp [extract_audio, haud, hrc]
  rw [build_record_transcription, build_record_method, haok]
  simp

theorem c3_record_witness :
    envUnintelligible.audioRun = .ok ⟨0, "", ""⟩ ∧
    (build_record envUnintelligible stLocal).transcription
      = some (if stLocal.use_openai ∧ stLocal.openai_api_key ≠ none
              then transcribe_audio_openai envUnintelligible
              else transcribe_audio_local envUnintelligible) :=
  ⟨rfl, (c3_record_always_tags_method envUnintelligible stLocal
    ⟨0, "", ""⟩ rfl rfl).1⟩

/-- C4 counterexample: for a container with zero subtitle streams the
first-stream copy exits non-zero and `extract_subtitles` returns the
Python `None` failure marker, not an empty sequence; the record's
`subtitles` field is set to `None` (absent-with-error), not `[]`. -/
theorem c4_counterexample :
    extract_subtitles envNoSubs = none ∧
    extract_subtitles envNoSubs ≠ some [] ∧
    (build_record envNoSubs stLocal).subtitles = some none := by
  refine ⟨rfl, by decide, rfl⟩

/-- C4 amended: when the subtitle-stream copy exits non-zero (no default
subtitle stream), `extract_subtitles` returns `None` (the enumeration
fallback runs for side effects only), the record's `subtitles` field is
set to `None`, and no `subtitle_text` is produced. -/
theorem c4_no_subs_returns_none (env : Env) (st : PState) (r : ProcResult)
    (hsub : env.subRun = .ok r) (hrc : r.returncode ≠ 0) :
    extract_subtitles env = none ∧
    (build_record env st).subtitles = some none ∧
    (build_record env st).subtitle_text = none := by
  have hs : extract_subtitles env = none := by
    unfold extract_subtitles
    rw [hsub]
    simp [hrc]
  refine ⟨hs, ?_, ?_⟩
  · rw [build_record_subtitles, hs]
  · rw [build_record_subtitle_text, hs]
    simp [pyTruthyList]

theorem c4_no_subs_witness :
    envNoSubs.subRun = .ok ⟨1, "", "Stream map matches no streams"⟩ ∧
    ((1 : Int) ≠ 0) ∧
    extract_subtitles envNoSubs = none :=
  ⟨rfl, by decide,
    (c4_no_subs_returns_none envNoSubs stLocal
      ⟨1, "", "Stream map matches no streams"⟩ rfl (by decide)).1⟩

/-- C5: a subtitle file of N well-formed blocks (index line, timestamp
line, text lines, blank-line separators, end-of-file as implicit
terminator) parses to exactly N entries in source order, each entry's text
being the block's text up to surrounding-whitespace trimming. -/
theorem c5_wellformed_blocks_parse (bs : List SrtBlock) (trailing : Bool)
    (h : ∀ b ∈ bs, wfBlock b = true) :
    parse_srt (renderSrt bs trailing) = bs.map entryOf ∧
    (parse_srt (renderSrt bs trailing)).length = bs.length := by
  have he := parse_renderSrt bs trailing h
  exact ⟨he, by rw [he, List.length_map]⟩

theorem c5_witness :
    (∀ b ∈ [blkHi, blkYo], wfBlock b = true) ∧
    parse_srt (renderSrt [blkHi, blkYo] false) = [blkHi, blkYo].map entryOf :=
  ⟨by decide, (c5_wellformed_blocks_parse [blkHi, blkYo] false (by decide)).1⟩

/-- C6 counterexample: one well-formed block followed by an out-of-grammar
block consisting of a valid index and timestamp header with NO text lines.
The claim demands exactly M = 1 entries (the malformed block dropped), but
the regex still matches the header-only block with an empty text capture,
so parsing returns 2 entries. -/
theorem c6_counterexample :
    wfBlock blkHi = true ∧
    (parse_srt (renderSrt [blkHi] true ++ badTailC6)).length = 2 := by
  refine ⟨by decide, by decide⟩

/-- C6 amended: for out-of-grammar blocks that contain no digit
characters, interspersed anywhere among M well-formed blocks, parsing
returns exactly M entries and (being a total function) never raises.
An out-of-grammar block that itself contains a digit-led header can
instead produce an extra (or merged) match, as the counterexample
shows. -/
theorem c6_digitfree_junk_count (items : List SrtItem)
    (h : ∀ i ∈ items, wfItem i = true) :
    (parse_srt (renderItems items)).length = blockCount items := by
  rw [parse_srt, List.length_map]
  exact findall_renderItems_len items.length items (Nat.le_refl _) h


theorem c6_witness :
    (∀ i ∈ itemsC6, wfItem i = true) ∧
    (parse_srt (renderItems itemsC6)).length = blockCount itemsC6 :=
  ⟨by decide, c6_digitfree_junk_count itemsC6 (by decide)⟩

/-- C7 counterexample: the parser performs no comparison of the two
timestamps.  A block whose `end_time` lexically precedes its `start_time`
is parsed and kept, not dropped: the claimed invariant fails on the
parser's output. -/
theorem c7_counterexample :
    parse_srt (renderSrt [blkBack] false) = [entryOf blkBack] ∧
    tsLexLt (entryOf blkBack).start_time (entryOf blkBack).end_time = false ∧
    (parse_srt (renderSrt [blkBack] false)).length = 1 := by
  refine ⟨by decide, by decide, by decide⟩

/-- C7 amended: `_parse_srt` enforces no ordering between `start_time` and
`end_time`: every well-formed block contributes its entry to the result
regardless of the relation between its timestamps (no entry is dropped on
ordering grounds). -/
theorem c7_no_ordering_check (bs : List SrtBlock) (trailing : Bool)
    (h : ∀ b ∈ bs, wfBlock b = true) :
    ∀ b ∈ bs, entryOf b ∈ parse_srt (renderSrt bs trailing) := by
  intro b hb
  rw [parse_renderSrt bs trailing h]
  exact List.mem_map_of_mem entryOf hb

theorem c7_witness :
    (∀ b ∈ [blkBack], wfBlock b = true) ∧
    entryOf blkBack ∈ parse_srt (renderSrt [blkBack] false) :=
  ⟨by decide,
    c7_no_ordering_check [blkBack] false (by decide) blkBack (by simp)⟩

/-- C8: a non-zero exit of the external media tool makes `extract_audio`
return the failure marker `None` (no exception reaches the aggregator)
with the captured stderr logged, and the aggregator, seeing the absence,
skips transcription entirely: neither the transcription nor the method key
is set in the record. -/
theorem c8_nonzero_exit_audio (env : Env) (st : PState) (r : ProcResult)
    (p : String) (haud : env.audioRun = .ok r) (hrc : r.returncode ≠ 0) :
    (extract_audio env p).1 = none ∧
    ("Error extracting audio: " ++ r.stderr) ∈ (extract_audio env p).2 ∧
    (build_record env st).transcription = none ∧
    (build_record env st).transcription_method = none := by
  have hea : extract_audio env p
      = (none, ["Error extracting audio: " ++ r.stderr]) := by
    unfold extract_audio
    rw [haud]
    simp [hrc]
  have hea2 : (extract_audio env "audio.wav").1 = none := by
    unfold extract_audio
    rw [haud]
    simp [hrc]
  refine ⟨by rw [hea], by rw [hea]; simp, ?_, ?_⟩
  · rw [build_record_transcription, hea2]
    rfl
  · rw [build_record_method, hea2]
    rfl

theorem c8_witness :
    envNoAudio.audioRun = .ok ⟨1, "", "no audio stream"⟩ ∧
    ((1 : Int) ≠ 0) ∧
    (extract_audio envNoAudio "audio.wav").1 = none ∧
    (build_record envNoAudio stLocal).transcription = none :=
  ⟨rfl, by decide,
    (c8_nonzero_exit_audio envNoAudio stLocal ⟨1, "", "no audio stream"⟩
      "audio.wav" rfl (by decide)).1,
    (c8_nonzero_exit_audio envNoAudio stLocal ⟨1, "", "no audio stream"⟩
      "audio.wav" rfl (by decide)).2.2.1⟩

/-- C9: the dependency probe returns `true` exactly when the tool's
version invocation exits zero, and `false` on any non-zero exit
(`check=True` raises `CalledProcessError`, caught) or executable-not-found
condition; and a failed probe never aborts construction: with the video
present, `__init__` succeeds whatever the probe outcome. -/
theorem c9_tool_available :
    (∀ o, check_yt_dlp_installed o = true ↔
      ∃ r, o = RunOutcome.ok r ∧ r.returncode = 0) ∧
    (∀ (env : Env) (vp : String) (uo : Bool) (key : Option String),
      env.videoExists = true →
      ∃ st, parser_init env vp uo key = .ok st) := by
  constructor
  · intro o
    constructor
    · intro h
      match o with
      | .ok r =>
        refine ⟨r, rfl, ?_⟩
        unfold check_yt_dlp_installed at h
        by_contra hne
        simp [hne] at h
      | .notFound => simp [check_yt_dlp_installed] at h
      | .subprocErr => simp [check_yt_dlp_installed] at h
    · rintro ⟨r, rfl, hrc⟩
      simp [check_yt_dlp_installed, hrc]
  · intro env vp uo key hex
    unfold parser_init
    rw [hex]
    exact ⟨_, rfl⟩

theorem c9_witness :
    check_yt_dlp_installed (RunOutcome.ok ⟨0, "", ""⟩) = true ∧
    (∃ st, parser_init envProbeFails "video.mp4" false none = .ok st) :=
  ⟨(c9_tool_available.1 _).mpr ⟨⟨0, "", ""⟩, rfl, rfl⟩,
   c9_tool_available.2 envProbeFails "video.mp4" false none rfl⟩


/-- C10: construction raises `FileNotFoundError` exactly when the video
path does not exist; when it exists, construction succeeds and records
the `mkdir(exist_ok=True, parents=True)` side effect on the output
directory. -/
theorem c10_init_checks_existence (env : Env) (vp : String) (uo : Bool)
    (key : Option String) :
    (env.videoExists = false →
      parser_init env vp uo key = .error .fileNotFound) ∧
    (env.videoExists = true →
      ∃ st, parser_init env vp uo key = .ok st ∧ st.dirCreated = true ∧
        st.mkdirParents = true ∧ st.mkdirExistOk = true) := by
  constructor
  · intro h
    unfold parser_init
    rw [h]
    rfl
  · intro h
    unfold parser_init
    rw [h]
    exact ⟨_, rfl, rfl, rfl, rfl⟩

theorem c10_witness :
    (envNoVideo.videoExists = false ∧
      parser_init envNoVideo "video.mp4" false none = .error .fileNotFound) ∧
    (baseEnv.videoExists = true ∧
      ∃ st, parser_init baseEnv "video.mp4" false none = .ok st ∧
        st.dirCreated = true ∧ st.mkdirParents = true ∧
        st.mkdirExistOk = true) :=
  ⟨⟨rfl, (c10_init_checks_existence envNoVideo "video.mp4" false none).1 rfl⟩,
   ⟨rfl, (c10_init_checks_existence baseEnv "video.mp4" false none).2 rfl⟩⟩

end VideoPoc
